import Mathlib

/-!
Verification of the EC2 instance-metadata client
(`vendor/github.com/aws/aws-sdk-go-v2/aws/ec2metadata/api_ops.go`).

The module's pure core is embedded directly: the path-join helper
`suffixPath` together with the Go standard library functions `path.Join`
and `path.Clean` it calls (translated from Go's lazybuf algorithm), the
two JSON-decoded records, and the per-operation logic (error wrapping,
status-code remapping, last-character strip, availability probe).

The external request engine (`aws.Request`, `NewRequest`/`Send`,
`awserr.New`) is vendored outside the sources at hand; it is modelled
from the spec as an abstract engine that, given an operation descriptor,
either succeeds with a body or fails with a raw HTTP status code and a
generic error, with an optional hook rewriting the error from the status
code.
-/

/-- Go `error` values as they appear in this module: either a plain error
(transport errors, JSON decode errors) or an `awserr.New code message cause`
wrapper whose cause may be Go `nil`. -/
inductive GoError where
  | basic (msg : String)
  | aws (code message : String) (cause : Option GoError)

/-- `aws.Operation`: the descriptor each API function builds (Name,
HTTPMethod, HTTPPath). -/
structure Operation where
  Name : String
  HTTPMethod : String
  HTTPPath : String
deriving DecidableEq, Repr

/- ### Go `path.Clean` / `path.Join`

`suffixPath` calls `path.Join`, which calls `path.Clean`. The embedding
below is a direct translation of Go's `path.Clean` (the lazybuf
algorithm): `backW` is the backtracking loop of the `..` case, and
`cleanStep` is the main reading loop, with the inner segment-copying
`for` loop expressed by the `inSeg` flag so that the recursion is
structural in the input. -/

/-- The `..`-case backtracking loop of Go `path.Clean`:
`for out.w > dotdot && out.index(out.w) != '/' { out.w-- }`. -/
def backW (out : List Char) (dotdot : Nat) : Nat → Nat
  | 0 => 0
  | w + 1 =>
    if dotdot < w + 1 ∧ out.getD (w + 1) ' ' ≠ '/' then backW out dotdot w
    else w + 1

/-- The `..` case of Go `path.Clean`: pop the last output segment when
the output extends past `dotdot`; otherwise, for a relative path, emit a
literal `..` and advance `dotdot`; for a rooted path do nothing. -/
def dotdotPop (rooted : Bool) (out : List Char) (dotdot : Nat) :
    List Char × Nat :=
  if dotdot < out.length then
    (out.take (backW out dotdot (out.length - 1)), dotdot)
  else if rooted = false then
    let out2 := (if 0 < out.length then out ++ ['/'] else out) ++ ['.', '.']
    (out2, out2.length)
  else (out, dotdot)

/-- The main loop of Go `path.Clean`. `inSeg = true` corresponds to being
inside the inner copying loop of the default case (the characters of the
current segment are appended one by one until a `'/'` or the end). -/
def cleanStep (rooted : Bool) : List Char → Bool → List Char → Nat → List Char
  | [], _, out, _ => out
  | '/' :: rest, _, out, dotdot => cleanStep rooted rest false out dotdot
  | c :: rest, true, out, dotdot => cleanStep rooted rest true (out ++ [c]) dotdot
  | ['.'], false, out, _ => out
  | '.' :: '/' :: rest, false, out, dotdot => cleanStep rooted rest false out dotdot
  | ['.', '.'], false, out, dotdot => (dotdotPop rooted out dotdot).1
  | '.' :: '.' :: '/' :: rest, false, out, dotdot =>
    let p := dotdotPop rooted out dotdot
    cleanStep rooted rest false p.1 p.2
  | c :: rest, false, out, dotdot =>
    cleanStep rooted rest true
      ((if (rooted = true ∧ out.length ≠ 1) ∨ (rooted = false ∧ out.length ≠ 0)
        then out ++ ['/'] else out) ++ [c])
      dotdot

/-- Go `path.Clean`. -/
def clean (p : String) : String :=
  if p.data = [] then "."
  else
    let rooted := p.data.headD ' ' = '/'
    let out :=
      if rooted then cleanStep true p.data.tail false ['/'] 1
      else cleanStep false p.data false [] 0
    if out = [] then "." else String.mk out

/-- Go `path.Join` specialised to the two arguments `suffixPath` passes:
skip leading empty elements, join the rest with `'/'`, and clean. -/
def pathJoin (elem1 elem2 : String) : String :=
  if elem1 ≠ "" then clean (elem1 ++ "/" ++ elem2)
  else if elem2 ≠ "" then clean elem2
  else ""

/-- `suffixPath` from the source: join the base and the suffix, and
re-append a trailing `'/'` when the suffix ends with one. -/
def suffixPath (base add : String) : String :=
  let reqPath := pathJoin base add
  if add.length ≠ 0 ∧ add.data.getLast? = some '/' then reqPath ++ "/"
  else reqPath

/- ### The request engine and the string-returning operations -/

/-- Modelled from the spec: the outcome the external request engine
produces for one operation — on success the output holder's string
content field is populated from the response body; on failure the raw
HTTP status code and a generic error are available to
response-interception hooks. -/
inductive EngineOutcome where
  | success (body : String)
  | failure (statusCode : Nat) (err : GoError)

/-- Modelled from the spec: a `Client` is the external request engine it
delegates to — a map from operation descriptors to outcomes (network
transport, retries and serialization are the engine's business and are
opaque at this layer). -/
structure Client where
  engine : Operation → EngineOutcome

/-- Modelled from the spec: `NewRequest` + `Send` with a registered
response-interception hook. On success the content field holds the body
and no error is returned; on failure the content field stays zero and
the generic error, possibly rewritten by the hook from the raw HTTP
status code, is returned. -/
def sendOp (c : Client) (op : Operation) (hook : Nat → GoError → GoError) :
    String × Option GoError :=
  match c.engine op with
  | .success body => (body, none)
  | .failure status err => ("", some (hook status err))

/-- The operation descriptor `GetMetadata` builds. -/
def metadataOp (p : String) : Operation :=
  ⟨"GetMetadata", "GET", suffixPath "/meta-data" p⟩

/-- The operation descriptor `GetUserData` builds. -/
def userDataOp : Operation := ⟨"GetUserData", "GET", "/user-data"⟩

/-- The operation descriptor `GetDynamicData` builds. -/
def dynamicOp (p : String) : Operation :=
  ⟨"GetDynamicData", "GET", suffixPath "/dynamic" p⟩

/-- `GetMetadata`: fetch under `/meta-data`, no hook. -/
def GetMetadata (c : Client) (p : String) : String × Option GoError :=
  sendOp c (metadataOp p) (fun _ e => e)

/-- `GetUserData`: fetch `/user-data` with the pushed `UnmarshalError`
hook: when the response status is `http.StatusNotFound` (404) the error
is replaced by `awserr.New "NotFoundError" "user-data not found" r.Error`. -/
def GetUserData (c : Client) : String × Option GoError :=
  sendOp c userDataOp
    (fun status e =>
      if status = 404 then .aws "NotFoundError" "user-data not found" (some e)
      else e)

/-- `GetDynamicData`: fetch under `/dynamic`, no hook. -/
def GetDynamicData (c : Client) (p : String) : String × Option GoError :=
  sendOp c (dynamicOp p) (fun _ e => e)

/-- `Available`: probe `instance-id`; false on any error, true otherwise. -/
def Available (c : Client) : Bool :=
  match (GetMetadata c "instance-id").2 with
  | some _ => false
  | none => true

/-- Go string slicing `s[:n]` with an `int` upper bound: out-of-range
bounds (in particular a negative `n`) panic at run time, modelled as
`none`. -/
def goSliceTo (s : String) (n : Int) : Option String :=
  if 0 ≤ n ∧ n ≤ (s.length : Int) then some (String.mk (s.data.take n.toNat))
  else none

/-- `Region`: fetch `placement/availability-zone` and return
`resp[:len(resp)-1]`; `none` is the run-time panic of the unguarded
slice on an empty response. -/
def Region (c : Client) : Option (String × Option GoError) :=
  match GetMetadata c "placement/availability-zone" with
  | (_, some err) => some ("", some err)
  | (resp, none) => (goSliceTo resp ((resp.length : Int) - 1)).map (fun r => (r, none))

/- ### JSON values and decoding

`encoding/json` is standard-library code outside the sources at hand.
Modelled from the spec ("parses the returned text as JSON into the
record"): a JSON value type, a recursive-descent parser for JSON text
(strings with the common escapes, objects, arrays, integers, booleans,
null; `\u` escapes and fractional numbers are not modelled), and field
binding following Go `encoding/json` struct decoding: keys are matched
to the struct tag or field name (exact, then case-insensitively), absent
or null keys leave the zero value, a non-object non-null top level is a
decode error, and `Decode` reads the first JSON value of the stream.
`time.Time` fields are modelled as carrying the RFC 3339 text verbatim. -/

inductive Jval where
  | null : Jval
  | boolean : Bool → Jval
  | intNum : Int → Jval
  | text : String → Jval
  | array : List Jval → Jval
  | object : List (String × Jval) → Jval

def lbrace : Char := Char.ofNat 123

def rbrace : Char := Char.ofNat 125

def isWsChar (c : Char) : Bool := c = ' ' ∨ c = '\n' ∨ c = '\t' ∨ c = '\r'

def skipWs (cs : List Char) : List Char := cs.dropWhile isWsChar

def escChar (e : Char) : Option Char :=
  if e = '"' ∨ e = '\\' ∨ e = '/' then some e
  else if e = 'n' then some '\n'
  else if e = 't' then some '\t'
  else if e = 'r' then some '\r'
  else if e = 'b' then some (Char.ofNat 8)
  else if e = 'f' then some (Char.ofNat 12)
  else none

/-- Parse the body of a JSON string after its opening quote. -/
def parseStrBody : List Char → List Char → Option (String × List Char)
  | [], _ => none
  | c :: rest, acc =>
    if c = '"' then some (String.mk acc.reverse, rest)
    else if c = '\\' then
      match rest, escChar (rest.headD ' ') with
      | _ :: rest2, some c2 => parseStrBody rest2 (c2 :: acc)
      | _, _ => none
    else parseStrBody rest (c :: acc)

def parseDigits (cs : List Char) : Option (Nat × List Char) :=
  let ds := cs.takeWhile Char.isDigit
  if ds.isEmpty then none
  else some (ds.foldl (fun a c => a * 10 + (c.toNat - 48)) 0,
    cs.dropWhile Char.isDigit)

/-- Parse one JSON value, returning it with the unconsumed remainder.
The fuel argument dominates the input length; object and array tails are
parsed by re-entering on the remainder with the opening bracket
re-prepended. -/
def parseVal : Nat → List Char → Option (Jval × List Char)
  | 0, _ => none
  | fuel + 1, cs =>
    match skipWs cs with
    | [] => none
    | c :: rest =>
      if c = '"' then
        (parseStrBody rest []).map (fun p => (Jval.text p.1, p.2))
      else if c = lbrace then
        match skipWs rest with
        | [] => none
        | c2 :: rest2 =>
          if c2 = rbrace then some (Jval.object [], rest2)
          else if c2 = '"' then
            match parseStrBody rest2 [] with
            | none => none
            | some (key, r1) =>
              match skipWs r1 with
              | ':' :: r2 =>
                match parseVal fuel r2 with
                | none => none
                | some (v, r3) =>
                  match skipWs r3 with
                  | ',' :: r4 =>
                    match parseVal fuel (lbrace :: r4) with
                    | some (Jval.object kvs, r5) =>
                      some (Jval.object ((key, v) :: kvs), r5)
                    | _ => none
                  | c5 :: r5 =>
                    if c5 = rbrace then some (Jval.object [(key, v)], r5)
                    else none
                  | [] => none
              | _ => none
          else none
      else if c = '[' then
        match skipWs rest with
        | [] => none
        | c2 :: rest2 =>
          if c2 = ']' then some (Jval.array [], rest2)
          else
            match parseVal fuel (c2 :: rest2) with
            | none => none
            | some (v, r1) =>
              match skipWs r1 with
              | ',' :: r2 =>
                match parseVal fuel ('[' :: r2) with
                | some (Jval.array xs, r3) => some (Jval.array (v :: xs), r3)
                | _ => none
              | ']' :: r2 => some (Jval.array [v], r2)
              | _ => none
      else if c = 't' then
        match rest with
        | 'r' :: 'u' :: 'e' :: r => some (Jval.boolean true, r)
        | _ => none
      else if c = 'f' then
        match rest with
        | 'a' :: 'l' :: 's' :: 'e' :: r => some (Jval.boolean false, r)
        | _ => none
      else if c = 'n' then
        match rest with
        | 'u' :: 'l' :: 'l' :: r => some (Jval.null, r)
        | _ => none
      else if c = '-' then
        match parseDigits rest with
        | some (n, r) => some (Jval.intNum (-(n : Int)), r)
        | none => none
      else if c.isDigit then
        match parseDigits (c :: rest) with
        | some (n, r) => some (Jval.intNum (n : Int), r)
        | none => none
      else none

/-- `json.NewDecoder(strings.NewReader s).Decode`: read the first JSON
value of the text; an empty or malformed document is a decode error. -/
def decodeJson (s : String) : Except String Jval :=
  match parseVal (s.length + 2) s.data with
  | none => .error "invalid JSON document"
  | some (v, _) => .ok v

/-- `time.Time`, modelled as the RFC 3339 text it was decoded from; the
zero value is the empty text. -/
structure GoTime where
  rfc3339 : String
deriving DecidableEq, Repr

/-- `EC2IAMInfo` from the source. -/
structure EC2IAMInfo where
  Code : String
  LastUpdated : GoTime
  InstanceProfileArn : String
  InstanceProfileID : String
deriving DecidableEq, Repr

/-- The zero `EC2IAMInfo`, as built by `EC2IAMInfo\x7b\x7d`. -/
def zeroIAMInfo : EC2IAMInfo := ⟨"", ⟨""⟩, "", ""⟩

/-- `EC2InstanceIdentityDocument` from the source, fields in source
order with their `json` tags recorded in the decoder below. -/
structure EC2InstanceIdentityDocument where
  DevpayProductCodes : List String
  MarketplaceProductCodes : List String
  AvailabilityZone : String
  PrivateIP : String
  Version : String
  Region : String
  InstanceID : String
  BillingProducts : List String
  InstanceType : String
  AccountID : String
  PendingTime : GoTime
  ImageID : String
  KernelID : String
  RamdiskID : String
  Architecture : String
deriving DecidableEq, Repr

/-- The zero `EC2InstanceIdentityDocument`. -/
def zeroDoc : EC2InstanceIdentityDocument :=
  ⟨[], [], "", "", "", "", "", [], "", "", ⟨""⟩, "", "", "", ""⟩

def lowerChar (c : Char) : Char :=
  if 'A' ≤ c ∧ c ≤ 'Z' then Char.ofNat (c.toNat + 32) else c

def eqFold (a b : String) : Bool :=
  a.data.map lowerChar == b.data.map lowerChar

/-- Go `encoding/json` key lookup: exact match first, then
case-insensitive. -/
def jsonLookup (kvs : List (String × Jval)) (name : String) : Option Jval :=
  match kvs.find? (fun kv => kv.1 == name) with
  | some kv => some kv.2
  | none => (kvs.find? (fun kv => eqFold kv.1 name)).map Prod.snd

/-- Bind a JSON object member to a `string` field: absent or null keeps
the zero value, a string is taken verbatim, anything else is a decode
error. -/
def bindString : Option Jval → Except String String
  | none => .ok ""
  | some .null => .ok ""
  | some (.text s) => .ok s
  | some _ => .error "cannot unmarshal value into field of type string"

def bindStringItems : List Jval → Except String (List String)
  | [] => .ok []
  | .text s :: rest => (bindStringItems rest).map (fun l => s :: l)
  | _ => .error "cannot unmarshal value into field of type []string"

/-- Bind a JSON object member to a `[]string` field. -/
def bindStringList : Option Jval → Except String (List String)
  | none => .ok []
  | some .null => .ok []
  | some (.array xs) => bindStringItems xs
  | some _ => .error "cannot unmarshal value into field of type []string"

/-- Bind a JSON object member to a `time.Time` field. -/
def bindTime : Option Jval → Except String GoTime
  | none => .ok ⟨""⟩
  | some .null => .ok ⟨""⟩
  | some (.text s) => .ok ⟨s⟩
  | some _ => .error "cannot unmarshal value into field of type time.Time"

/-- Decode the IAM-info payload into `EC2IAMInfo` (no struct tags, so
keys are the field names). -/
def decodeIAMInfo (body : String) : Except String EC2IAMInfo :=
  match decodeJson body with
  | .error e => .error e
  | .ok .null => .ok zeroIAMInfo
  | .ok (.object kvs) => do
    let code ← bindString (jsonLookup kvs "Code")
    let lu ← bindTime (jsonLookup kvs "LastUpdated")
    let arn ← bindString (jsonLookup kvs "InstanceProfileArn")
    let id ← bindString (jsonLookup kvs "InstanceProfileID")
    .ok ⟨code, lu, arn, id⟩
  | .ok _ => .error "cannot unmarshal value into struct EC2IAMInfo"

/-- Decode the identity-document payload into
`EC2InstanceIdentityDocument`, keys per the `json` struct tags. -/
def decodeIdentityDocument (body : String) :
    Except String EC2InstanceIdentityDocument :=
  match decodeJson body with
  | .error e => .error e
  | .ok .null => .ok zeroDoc
  | .ok (.object kvs) => do
    let dpc ← bindStringList (jsonLookup kvs "devpayProductCodes")
    let mpc ← bindStringList (jsonLookup kvs "marketplaceProductCodes")
    let az ← bindString (jsonLookup kvs "availabilityZone")
    let pip ← bindString (jsonLookup kvs "privateIp")
    let ver ← bindString (jsonLookup kvs "version")
    let reg ← bindString (jsonLookup kvs "region")
    let iid ← bindString (jsonLookup kvs "instanceId")
    let bp ← bindStringList (jsonLookup kvs "billingProducts")
    let ity ← bindString (jsonLookup kvs "instanceType")
    let acc ← bindString (jsonLookup kvs "accountId")
    let pt ← bindTime (jsonLookup kvs "pendingTime")
    let img ← bindString (jsonLookup kvs "imageId")
    let ker ← bindString (jsonLookup kvs "kernelId")
    let ram ← bindString (jsonLookup kvs "ramdiskId")
    let arch ← bindString (jsonLookup kvs "architecture")
    .ok ⟨dpc, mpc, az, pip, ver, reg, iid, bp, ity, acc, pt, img, ker, ram, arch⟩
  | .ok _ => .error "cannot unmarshal value into struct EC2InstanceIdentityDocument"

/-- `IAMInfo` from the source: fetch `iam/info`, decode, and require the
decoded `Code` to be the literal `"Success"`. -/
def IAMInfo (c : Client) : EC2IAMInfo × Option GoError :=
  match GetMetadata c "iam/info" with
  | (_, some err) =>
    (zeroIAMInfo,
      some (.aws "EC2MetadataRequestError" "failed to get EC2 IAM info" (some err)))
  | (resp, none) =>
    match decodeIAMInfo resp with
    | .error e =>
      (zeroIAMInfo,
        some (.aws "SerializationError" "failed to decode EC2 IAM info"
          (some (.basic e))))
    | .ok info =>
      if info.Code ≠ "Success" then
        (zeroIAMInfo,
          some (.aws "EC2MetadataError"
            ("failed to get EC2 IAM Info (" ++ info.Code ++ ")") none))
      else (info, none)

/-- `GetInstanceIdentityDocument` from the source: fetch the dynamic
data at `instance-identity/document` and decode it. -/
def GetInstanceIdentityDocument (c : Client) :
    EC2InstanceIdentityDocument × Option GoError :=
  match GetDynamicData c "instance-identity/document" with
  | (_, some err) =>
    (zeroDoc,
      some (.aws "EC2MetadataRequestError"
        "failed to get EC2 instance identity document" (some err)))
  | (resp, none) =>
    match decodeIdentityDocument resp with
    | .error e =>
      (zeroDoc,
        some (.aws "SerializationError"
          "failed to decode EC2 instance identity document" (some (.basic e))))
    | .ok doc => (doc, none)

example : decodeIAMInfo "\x7b\"Code\": \"Success\"\x7d" =
    .ok ⟨"Success", ⟨""⟩, "", ""⟩ := rfl

example : decodeIAMInfo "not json" = .error "invalid JSON document" := rfl

example : decodeIdentityDocument
    "\x7b\"region\": \"us-east-1\", \"billingProducts\": [\"bp1\", \"bp2\"]\x7d" =
    .ok { zeroDoc with Region := "us-east-1", BillingProducts := ["bp1", "bp2"] } := rfl

example : clean "/meta-data/../user-data" = "/user-data" := by decide
example : clean "/meta-data/.." = "/" := by decide
example : clean "/meta-data//x/./y/" = "/meta-data/x/y" := by decide
example : suffixPath "/meta-data" "iam/info" = "/meta-data/iam/info" := by decide
example : suffixPath "/meta-data" "x/" = "/meta-data/x/" := by decide
example : suffixPath "/meta-data" ".." = "/" := by decide

/- ### Theorems -/

/- #### The trailing-slash behaviour of `suffixPath` (claims C4, C10)

`path.Clean` of a rooted path never ends in `'/'` unless it is exactly
`"/"`. This is proved through an invariant on the output buffer of
`cleanStep`: it is non-empty, starts with `'/'`, never holds two
adjacent slashes, and ends in `'/'` only when it is exactly `['/']`. -/

def noDupSlash (a b : Char) : Prop := ¬(a = '/' ∧ b = '/')

/-- Invariant of the `cleanStep` output buffer for a rooted path. -/
def goodOut (out : List Char) : Prop :=
  out ≠ [] ∧ out.head? = some '/' ∧ List.Chain' noDupSlash out ∧
    (out = ['/'] ∨ out.getLast? ≠ some '/')

theorem backW_cases (out : List Char) (dd : Nat) :
    ∀ w, dd ≤ w → dd ≤ backW out dd w ∧ backW out dd w ≤ w ∧
      (backW out dd w = dd ∨ out.getD (backW out dd w) ' ' = '/') := by
  intro w
  induction w with
  | zero =>
    intro h
    simp only [backW]
    exact ⟨h, Nat.le_refl _, Or.inl (by omega)⟩
  | succ w ih =>
    intro h
    simp only [backW]
    split
    · rename_i hc
      obtain ⟨h1, h2, h3⟩ := ih (by omega)
      exact ⟨h1, by omega, h3⟩
    · rename_i hc
      refine ⟨h, Nat.le_refl _, ?_⟩
      by_cases hdd : dd < w + 1
      · right
        by_contra hslash
        exact hc ⟨hdd, hslash⟩
      · left
        omega

theorem chain'_take_of_chain' {α : Type} {R : α → α → Prop} :
    ∀ (l : List α) (n : Nat), List.Chain' R l → List.Chain' R (l.take n) := by
  intro l
  induction l with
  | nil =>
    intro n _
    simp
  | cons a t ihl =>
    intro n h
    cases n with
    | zero => simp
    | succ m =>
      rw [List.take_succ_cons]
      cases t with
      | nil => simp
      | cons b t2 =>
        rw [List.chain'_cons] at h
        cases m with
        | zero => simp
        | succ k =>
          rw [List.take_succ_cons, List.chain'_cons]
          have hrec := ihl (k + 1) h.2
          rw [List.take_succ_cons] at hrec
          exact ⟨h.1, hrec⟩

theorem goodOut_dotdotPop (out : List Char) (hg : goodOut out) :
    goodOut (dotdotPop true out 1).1 ∧ (dotdotPop true out 1).2 = 1 := by
  obtain ⟨hne, hhead, hchain, hlast⟩ := hg
  obtain ⟨a, t, rfl⟩ : ∃ a t, out = a :: t := by
    cases out with
    | nil => simp at hne
    | cons a t => exact ⟨a, t, rfl⟩
  have ha : a = '/' := by simpa using hhead
  subst ha
  have hL : ('/' :: t).length = t.length + 1 := rfl
  unfold dotdotPop
  by_cases hlen : 1 < ('/' :: t).length
  · rw [if_pos hlen]
    refine ⟨?_, rfl⟩
    show goodOut (('/' :: t).take (backW ('/' :: t) 1 (('/' :: t).length - 1)))
    obtain ⟨hw1, hw2, hw3⟩ :=
      backW_cases ('/' :: t) 1 (('/' :: t).length - 1) (by omega)
    generalize hgen : backW ('/' :: t) 1 (('/' :: t).length - 1) = w
      at hw1 hw2 hw3 ⊢
    have hl : (('/' :: t).take w).length = w := by
      rw [List.length_take]
      omega
    refine ⟨?_, ?_, chain'_take_of_chain' _ _ hchain, ?_⟩
    · intro hcon
      rw [hcon] at hl
      simp at hl
      omega
    · obtain ⟨w', rfl⟩ : ∃ w', w = w' + 1 := ⟨w - 1, by omega⟩
      rw [List.take_succ_cons]
      simp
    · rcases hw3 with h1 | h2
      · left
        rw [h1]
        rfl
      · right
        have hwlt : w < ('/' :: t).length := by omega
        have hget : ('/' :: t)[w] = '/' := by
          rw [List.getD_eq_getElem ('/' :: t) ' ' hwlt] at h2
          exact h2
        have hRadj := List.chain'_iff_get.mp hchain (w - 1) (by omega)
        simp only [List.get_eq_getElem] at hRadj
        have hidx : w - 1 + 1 = w := by omega
        simp only [hidx] at hRadj
        have hprev : ('/' :: t)[w - 1] ≠ '/' := by
          intro hcon
          exact hRadj ⟨hcon, hget⟩
        rw [List.getLast?_eq_getElem?, hl, List.getElem?_take,
          if_pos (by omega : w - 1 < w),
          List.getElem?_eq_getElem (by omega : w - 1 < ('/' :: t).length)]
        intro hcon
        simp only [Option.some.injEq] at hcon
        exact hprev hcon
  · rw [if_neg hlen]
    have ht : t = [] := by
      have : t.length = 0 := by omega
      exact List.eq_nil_of_length_eq_zero this
    subst ht
    refine ⟨⟨hne, hhead, hchain, hlast⟩, rfl⟩

theorem goodOut_append_char (out : List Char) (c : Char) (hg : goodOut out)
    (hc : c ≠ '/') : goodOut (out ++ [c]) := by
  obtain ⟨hne, hhead, hchain, _⟩ := hg
  obtain ⟨a, t, rfl⟩ : ∃ a t, out = a :: t := by
    cases out with
    | nil => simp at hne
    | cons a t => exact ⟨a, t, rfl⟩
  refine ⟨by simp, by simpa using hhead, ?_, Or.inr ?_⟩
  · rw [List.chain'_append]
    refine ⟨hchain, List.chain'_singleton c, ?_⟩
    intro x _ y hy
    simp at hy
    subst hy
    intro hand
    exact hc hand.2
  · rw [List.getLast?_concat]
    simp [hc]

theorem goodOut_append_sep_char (out : List Char) (c : Char) (hg : goodOut out)
    (hc : c ≠ '/') :
    goodOut ((if out.length ≠ 1 then out ++ ['/'] else out) ++ [c]) := by
  by_cases h1 : out.length = 1
  · rw [if_neg (by simp [h1])]
    exact goodOut_append_char out c hg hc
  · rw [if_pos h1]
    obtain ⟨hne, hhead, hchain, hlast⟩ := hg
    have hlast' : out.getLast? ≠ some '/' := by
      rcases hlast with h | h
      · subst h
        simp at h1
      · exact h
    obtain ⟨a, t, rfl⟩ : ∃ a t, out = a :: t := by
      cases out with
      | nil => simp at hne
      | cons a t => exact ⟨a, t, rfl⟩
    rw [List.append_assoc]
    rw [show (['/'] ++ [c] : List Char) = ['/', c] from rfl]
    refine ⟨by simp, by simpa using hhead, ?_, Or.inr ?_⟩
    · rw [List.chain'_append]
      refine ⟨hchain, ?_, ?_⟩
      · refine List.chain'_cons.mpr ⟨?_, List.chain'_singleton c⟩
        intro hand
        exact hc hand.2
      · intro x hx y hy
        simp at hy
        subst hy
        intro hand
        apply hlast'
        rw [Option.mem_def] at hx
        rw [hx, hand.1]
    · rw [show (['/', c] : List Char) = ['/'] ++ [c] from rfl,
        ← List.append_assoc, List.getLast?_concat]
      simp [hc]

theorem cleanStep_good :
    ∀ (n : Nat) (inp : List Char), inp.length ≤ n →
      ∀ (sg : Bool) (out : List Char), goodOut out →
        goodOut (cleanStep true inp sg out 1) := by
  intro n
  induction n with
  | zero =>
    intro inp hlen sg out hg
    have hinp : inp = [] := List.eq_nil_of_length_eq_zero (Nat.le_zero.mp hlen)
    subst hinp
    simpa [cleanStep] using hg
  | succ n ih =>
    intro inp hlen sg out hg
    rw [cleanStep.eq_def]
    split
    · exact hg
    · rename_i rest
      exact ih rest (by simp only [List.length_cons] at hlen; omega) false _ hg
    · rename_i c rest hslash
      exact ih rest (by simp only [List.length_cons] at hlen; omega) true _
        (goodOut_append_char _ c hg hslash)
    · exact hg
    · rename_i rest
      exact ih rest (by simp only [List.length_cons] at hlen; omega) false _ hg
    · exact (goodOut_dotdotPop _ hg).1
    · rename_i o1 o2 o3 o4 o5 rest
      show goodOut (cleanStep true rest false
        (dotdotPop true o1 1).1 (dotdotPop true o1 1).2)
      obtain ⟨hp1, hp2⟩ := goodOut_dotdotPop o1 hg
      rw [hp2]
      exact ih rest (by simp only [List.length_cons] at hlen; omega) false _ hp1
    · rename_i o1 o2 o3 o4 o5 c rest g1 g2 g3 g4 g5
      have hrw : (if true = true ∧ o1.length ≠ 1 ∨ true = false ∧ o1.length ≠ 0
          then o1 ++ ['/'] else o1) =
          (if o1.length ≠ 1 then o1 ++ ['/'] else o1) := by
        by_cases h : o1.length = 1 <;> simp [h]
      rw [hrw]
      exact ih rest (by simp only [List.length_cons] at hlen; omega) true _
        (goodOut_append_sep_char o1 c hg g1)

/-- `clean` of a rooted path ends in `'/'` only when it is exactly `"/"`. -/
theorem clean_rooted_last (s : String) (hd : s.data.head? = some '/') :
    (clean s).data.getLast? = some '/' → clean s = "/" := by
  obtain ⟨cs, hcs⟩ : ∃ cs, s.data = '/' :: cs := by
    cases h : s.data with
    | nil => rw [h] at hd; simp at hd
    | cons a t =>
      rw [h] at hd
      simp at hd
      exact ⟨t, by rw [hd]⟩
  have hg : goodOut (cleanStep true cs false ['/'] 1) :=
    cleanStep_good cs.length cs (Nat.le_refl _) false ['/']
      ⟨by simp, by simp, by simp, Or.inl rfl⟩
  have hclean : clean s = String.mk (cleanStep true cs false ['/'] 1) := by
    unfold clean
    rw [hcs]
    rw [if_neg (by simp : ¬('/' :: cs = []))]
    simp only [List.headD_cons, List.tail_cons, if_true]
    rw [if_neg hg.1]
  intro hlast
  rw [hclean] at hlast ⊢
  have hout : cleanStep true cs false ['/'] 1 = ['/'] := by
    rcases hg.2.2.2 with h1 | h2
    · exact h1
    · exact absurd hlast h2
  rw [hout]

/-- Claim C4 as stated is false: `suffixPath "/meta-data" ".."` is
`"/"`, which ends in a separator although `".."` does not. -/
theorem suffixPath_trailing_slash_counterexample :
    ¬ (∀ P : String, (suffixPath "/meta-data" P).data.getLast? = some '/' ↔
        P.data.getLast? = some '/') := by
  intro h
  have h2 := (h "..").mp (by decide)
  exact absurd h2 (by decide)

/-- Claim C4, amended: the result of `suffixPath "/meta-data" P` ends in
a separator iff `P` ends in a separator or the join collapses to the
root path `"/"`. -/
theorem suffixPath_trailing_slash (P : String) :
    (suffixPath "/meta-data" P).data.getLast? = some '/' ↔
      (P.data.getLast? = some '/' ∨ pathJoin "/meta-data" P = "/") := by
  have hjoin : pathJoin "/meta-data" P = clean ("/meta-data" ++ "/" ++ P) := by
    unfold pathJoin
    rw [if_pos (by decide)]
  by_cases hp : P.data.getLast? = some '/'
  · have hlen : P.length ≠ 0 := by
      intro h0
      have : P.data = [] := List.eq_nil_of_length_eq_zero h0
      rw [this] at hp
      simp at hp
    simp only [suffixPath]
    rw [if_pos ⟨hlen, hp⟩]
    constructor
    · intro _
      exact Or.inl hp
    · intro _
      rw [String.data_append]
      rw [show ("/" : String).data = ['/'] from rfl, List.getLast?_concat]
  · simp only [suffixPath]
    rw [if_neg (by intro hand; exact hp hand.2)]
    constructor
    · intro hlast
      right
      rw [hjoin] at *
      apply clean_rooted_last
      · rw [String.data_append, String.data_append]
        rfl
      · exact hlast
    · rintro (h | h)
      · exact absurd h hp
      · rw [h]
        rfl

/-- Claim C1: for every request made by `GetUserData`, a 404 response
status makes the returned error a `"NotFoundError"`-tagged error
wrapping the original generic error; any other failing status passes
the underlying error through unmodified. -/
theorem getUserData_404_remap (c : Client) (s : Nat) (e : GoError)
    (h : c.engine userDataOp = .failure s e) :
    (GetUserData c).2 =
      some (if s = 404 then
        GoError.aws "NotFoundError" "user-data not found" (some e) else e) := by
  simp only [GetUserData, sendOp, h]

def c1Client : Client := ⟨fun _ => .failure 404 (.basic "transport failed")⟩

theorem getUserData_404_remap_witness :
    (GetUserData c1Client).2 =
      some (.aws "NotFoundError" "user-data not found"
        (some (.basic "transport failed"))) := by
  simpa using getUserData_404_remap c1Client 404 (.basic "transport failed") rfl

/-- Claim C2: when `IAMInfo` fetches and decodes successfully, a decoded
`Code` equal to `"Success"` yields the record with no error, and any
other code yields an `"EC2MetadataError"`-tagged error whose message
contains that code. -/
theorem iamInfo_code_check (c : Client) (body : String) (info : EC2IAMInfo)
    (hf : c.engine (metadataOp "iam/info") = .success body)
    (hd : decodeIAMInfo body = .ok info) :
    (info.Code = "Success" → IAMInfo c = (info, none)) ∧
    (info.Code ≠ "Success" →
      ∃ msg, IAMInfo c = (zeroIAMInfo, some (.aws "EC2MetadataError" msg none)) ∧
        info.Code.data <:+: msg.data) := by
  constructor
  · intro hcode
    simp [IAMInfo, GetMetadata, sendOp, hf, hd, hcode]
  · intro hcode
    refine ⟨"failed to get EC2 IAM Info (" ++ info.Code ++ ")", ?_, ?_⟩
    · simp [IAMInfo, GetMetadata, sendOp, hf, hd, hcode]
    · rw [String.data_append, String.data_append]
      exact ⟨"failed to get EC2 IAM Info (".data, ")".data, rfl⟩

def c2Client : Client := ⟨fun _ => .success "\x7b\"Code\": \"Failed\"\x7d"⟩

theorem iamInfo_code_check_witness :
    ∃ msg, IAMInfo c2Client = (zeroIAMInfo, some (.aws "EC2MetadataError" msg none)) ∧
      ("Failed").data <:+: msg.data :=
  (iamInfo_code_check c2Client "\x7b\"Code\": \"Failed\"\x7d"
    ⟨"Failed", ⟨""⟩, "", ""⟩ rfl rfl).2 (by decide)

/-- Claim C3: `GetInstanceIdentityDocument` has exactly two failure
modes, in order: a failed fetch is wrapped as `"EC2MetadataRequestError"`
with the fetch error as cause; a failed decode after a successful fetch
is wrapped as `"SerializationError"` with the decode error as cause;
otherwise the decoded record is returned with no error. -/
theorem getInstanceIdentityDocument_modes (c : Client) :
    (∀ s e, c.engine (dynamicOp "instance-identity/document") = .failure s e →
      GetInstanceIdentityDocument c =
        (zeroDoc, some (.aws "EC2MetadataRequestError"
          "failed to get EC2 instance identity document" (some e)))) ∧
    (∀ body e, c.engine (dynamicOp "instance-identity/document") = .success body →
      decodeIdentityDocument body = .error e →
      GetInstanceIdentityDocument c =
        (zeroDoc, some (.aws "SerializationError"
          "failed to decode EC2 instance identity document" (some (.basic e))))) ∧
    (∀ body doc, c.engine (dynamicOp "instance-identity/document") = .success body →
      decodeIdentityDocument body = .ok doc →
      GetInstanceIdentityDocument c = (doc, none)) := by
  refine ⟨fun s e h => ?_, fun body e h hd => ?_, fun body doc h hd => ?_⟩
  · simp [GetInstanceIdentityDocument, GetDynamicData, sendOp, h]
  · simp [GetInstanceIdentityDocument, GetDynamicData, sendOp, h, hd]
  · simp [GetInstanceIdentityDocument, GetDynamicData, sendOp, h, hd]

def c3Client : Client := ⟨fun _ => .failure 500 (.basic "unreachable")⟩

theorem getInstanceIdentityDocument_modes_witness :
    GetInstanceIdentityDocument c3Client =
      (zeroDoc, some (.aws "EC2MetadataRequestError"
        "failed to get EC2 instance identity document" (some (.basic "unreachable")))) :=
  (getInstanceIdentityDocument_modes c3Client).1 500 (.basic "unreachable") rfl

/-- The unguarded slice `resp[:len(resp)-1]` on a non-empty string is
the string without its last character. -/
theorem goSliceTo_ne_empty (s : String) (hne : s ≠ "") :
    goSliceTo s ((s.length : Int) - 1) = some (String.mk s.data.dropLast) := by
  have hlen : 0 < s.data.length := by
    cases hb : s.data with
    | nil => exact absurd (by cases s; simp_all) hne
    | cons c cs => simp
  have hlen' : s.length = s.data.length := rfl
  unfold goSliceTo
  rw [if_pos (by constructor <;> omega)]
  congr 1
  rw [List.dropLast_eq_take]
  have harith : ((s.length : Int) - 1).toNat = s.data.length - 1 := by omega
  rw [harith]

/-- Claim C5: on a successful fetch of `placement/availability-zone`
returning a (non-empty) string, `Region` returns it with exactly its
last character removed; on a failed fetch it returns the empty string
and the fetch error unmodified. -/
theorem region_strips_last (c : Client) :
    (∀ body, c.engine (metadataOp "placement/availability-zone") = .success body →
      body ≠ "" → Region c = some (String.mk body.data.dropLast, none)) ∧
    (∀ s e, c.engine (metadataOp "placement/availability-zone") = .failure s e →
      Region c = some ("", some e)) := by
  constructor
  · intro body h hne
    simp [Region, GetMetadata, sendOp, h, goSliceTo_ne_empty body hne]
  · intro s e h
    simp [Region, GetMetadata, sendOp, h]

def c5Client : Client := ⟨fun _ => .success "us-west-2a"⟩

theorem region_strips_last_witness :
    Region c5Client = some ("us-west-2", none) := by
  have := (region_strips_last c5Client).1 "us-west-2a" rfl (by decide)
  simpa using this

/-- Claim C6: `Available` returns true exactly when the metadata fetch
of `instance-id` succeeds, and false on any error, discarding the
error's contents. -/
theorem available_iff_success (c : Client) :
    Available c = true ↔
      ∃ body, c.engine (metadataOp "instance-id") = .success body := by
  unfold Available GetMetadata sendOp
  cases h : c.engine (metadataOp "instance-id") <;> simp [h]

/-- Claim C8: the last-character strip in `Region` is unguarded: on a
successful fetch it panics (indexes out of bounds) exactly when the
response is empty, rather than returning a value or a tagged error. -/
theorem region_empty_underflow (c : Client) (body : String)
    (h : c.engine (metadataOp "placement/availability-zone") = .success body) :
    Region c = none ↔ body = "" := by
  simp only [Region, GetMetadata, sendOp, h, goSliceTo]
  rcases hb : body.data with _ | ⟨c0, cs⟩
  · have : body = "" := by cases body; simp_all
    subst this
    simp
  · have hlen : 0 < body.data.length := by rw [hb]; simp
    have hne : body ≠ "" := by
      intro hcon
      rw [hcon] at hb
      simp at hb
    have hlen' : body.length = body.data.length := rfl
    rw [if_pos (by constructor <;> omega)]
    simp [hne]

def c8Client : Client := ⟨fun _ => .success ""⟩

theorem region_empty_underflow_witness : Region c8Client = none :=
  (region_empty_underflow c8Client "" rfl).mpr rfl

/-- Claim C9: whenever `GetInstanceIdentityDocument` or `IAMInfo`
returns a non-nil error, the record returned alongside it is the
zero-valued record. -/
theorem error_implies_zero_record (c : Client) :
    ((GetInstanceIdentityDocument c).2 ≠ none →
      (GetInstanceIdentityDocument c).1 = zeroDoc) ∧
    ((IAMInfo c).2 ≠ none → (IAMInfo c).1 = zeroIAMInfo) := by
  constructor
  · unfold GetInstanceIdentityDocument GetDynamicData sendOp
    cases c.engine (dynamicOp "instance-identity/document") with
    | success body =>
      cases hd : decodeIdentityDocument body <;> simp [hd]
    | failure s e => simp
  · unfold IAMInfo GetMetadata sendOp
    cases c.engine (metadataOp "iam/info") with
    | success body =>
      cases hd : decodeIAMInfo body with
      | error e => simp [hd]
      | ok info =>
        by_cases hc : info.Code = "Success" <;> simp [hd, hc]
    | failure s e => simp

def c9Client : Client := ⟨fun _ => .failure 503 (.basic "service down")⟩

theorem error_implies_zero_record_witness :
    (GetInstanceIdentityDocument c9Client).1 = zeroDoc :=
  (error_implies_zero_record c9Client).1
    (by simp [GetInstanceIdentityDocument, GetDynamicData, sendOp, c9Client])

/-- Claim C10: the path-join helper resolves `..` segments: joining
`"../user-data"` under `"/meta-data"` produces `"/user-data"`, which
does not lie under `"/meta-data"`. -/
theorem suffixPath_dotdot_escapes_base :
    suffixPath "/meta-data" "../user-data" = "/user-data" ∧
    ¬ ∃ t, suffixPath "/meta-data" "../user-data" = "/meta-data" ++ t := by
  refine ⟨by decide, ?_⟩
  rintro ⟨t, ht⟩
  rw [show suffixPath "/meta-data" "../user-data" = "/user-data" from by decide] at ht
  have h2 : ("/user-data").data[1]? = some 'u' := by decide
  rw [ht] at h2
  rw [String.data_append,
    List.getElem?_append_left (by decide : 1 < ("/meta-data").data.length)] at h2
  exact absurd h2 (by decide)

/-- Two identity documents differing only in `BillingProducts` and
`InstanceType`, agreeing on every component the claim enumerates. -/
def docA : EC2InstanceIdentityDocument := zeroDoc

def docB : EC2InstanceIdentityDocument :=
  { zeroDoc with BillingProducts := ["bp"], InstanceType := "t2.micro" }

/-- Claim C7 as stated is false: the record does not consist of only the
ten listed strings, two product-code sequences and the timestamp — two
distinct records agree on all of those. -/
theorem identityDocument_shape_counterexample :
    ¬ (∀ a b : EC2InstanceIdentityDocument,
      a.Region = b.Region → a.InstanceID = b.InstanceID →
      a.AccountID = b.AccountID → a.ImageID = b.ImageID →
      a.KernelID = b.KernelID → a.RamdiskID = b.RamdiskID →
      a.Architecture = b.Architecture → a.Version = b.Version →
      a.AvailabilityZone = b.AvailabilityZone → a.PrivateIP = b.PrivateIP →
      a.DevpayProductCodes = b.DevpayProductCodes →
      a.MarketplaceProductCodes = b.MarketplaceProductCodes →
      a.PendingTime = b.PendingTime → a = b) := by
  intro h
  have hab := h docA docB rfl rfl rfl rfl rfl rfl rfl rfl rfl rfl rfl rfl rfl
  exact absurd hab (by decide)

/-- A syntactically valid identity-document payload exercising every
field of the record. -/
def idDocPayload : String :=
  "\x7b\"devpayProductCodes\": [\"dp1\", \"dp2\"], " ++
  "\"marketplaceProductCodes\": [\"mp1\"], " ++
  "\"availabilityZone\": \"us-east-1a\", \"privateIp\": \"10.0.0.1\", " ++
  "\"version\": \"2017-09-30\", \"region\": \"us-east-1\", " ++
  "\"instanceId\": \"i-123abc\", \"billingProducts\": [\"bp1\"], " ++
  "\"instanceType\": \"t2.micro\", \"accountId\": \"123456789012\", " ++
  "\"pendingTime\": \"2014-05-14T10:02:06Z\", \"imageId\": \"ami-123\", " ++
  "\"kernelId\": \"aki-1\", \"ramdiskId\": \"ari-1\", " ++
  "\"architecture\": \"x86_64\"\x7d"

def idDocExpected : EC2InstanceIdentityDocument :=
  ⟨["dp1", "dp2"], ["mp1"], "us-east-1a", "10.0.0.1", "2017-09-30",
    "us-east-1", "i-123abc", ["bp1"], "t2.micro", "123456789012",
    ⟨"2014-05-14T10:02:06Z"⟩, "ami-123", "aki-1", "ari-1", "x86_64"⟩

set_option maxRecDepth 8000 in
/-- Claim C7, amended: the identity-document record consists of eleven
strings (the ten listed plus instance type), exactly three ordered
sequences of strings (two product-code sequences and billing products)
and one timestamp; a syntactically valid identity-document JSON payload
decodes into a record whose field values match the payload. -/
theorem identityDocument_shape_and_decode :
    (∀ a b : EC2InstanceIdentityDocument, a = b ↔
      (a.DevpayProductCodes = b.DevpayProductCodes ∧
       a.MarketplaceProductCodes = b.MarketplaceProductCodes ∧
       a.AvailabilityZone = b.AvailabilityZone ∧ a.PrivateIP = b.PrivateIP ∧
       a.Version = b.Version ∧ a.Region = b.Region ∧
       a.InstanceID = b.InstanceID ∧ a.BillingProducts = b.BillingProducts ∧
       a.InstanceType = b.InstanceType ∧ a.AccountID = b.AccountID ∧
       a.PendingTime = b.PendingTime ∧ a.ImageID = b.ImageID ∧
       a.KernelID = b.KernelID ∧ a.RamdiskID = b.RamdiskID ∧
       a.Architecture = b.Architecture)) ∧
    decodeIdentityDocument idDocPayload = .ok idDocExpected := by
  refine ⟨fun a b => ?_, rfl⟩
  constructor
  · rintro rfl
    exact ⟨rfl, rfl, rfl, rfl, rfl, rfl, rfl, rfl, rfl, rfl, rfl, rfl, rfl,
      rfl, rfl⟩
  · rintro ⟨h1, h2, h3, h4, h5, h6, h7, h8, h9, h10, h11, h12, h13, h14, h15⟩
    cases a; cases b; simp_all
